import Mathlib

/-!
Verification development for the RESP decoder/encoder and connection driver
in src/solutions/rust/05-echo/code/src/resp.rs.

Modelling conventions (shallow embedding):
- Rust byte buffers (BytesMut, &[u8]) are Lean `List Nat`, each entry a byte value.
- Rust String payloads are kept as their UTF-8 byte sequences (`List Nat`); the
  Rust type invariant "a String is valid UTF-8" is recovered where needed from
  the fact that parse_string only succeeds on utf8Valid byte lists.
- usize arithmetic that can wrap (the i64 -> usize cast and the additions in
  decode_bulk_string) is taken modulo 2^64, matching release-build semantics.
- A Rust process abort (panic!, out-of-bounds index/slice, .unwrap() on None)
  is modelled by an explicit `panicked` outcome (or `none` for Value.encode);
  it is never silently collapsed into an error result.
- anyhow error messages are mapped to the spec's named error kinds:
  "unrecognised message type" -> unrecognizedMessageType,
  "Could not parse string" -> malformedUtf8,
  "Could not parse integer" -> invalidInteger,
  "not an array" -> invalidCommand,
  "connection closed unexpectedly" -> connectionClosedUnexpectedly.
-/

/-- Byte buffers: each entry stands for one u8 value. -/
abbrev Bytes := List Nat

/-- const CARRIAGE_RETURN: u8 = b'\r' (13). -/
def CARRIAGE_RETURN : Nat := 13

/-- const NEWLINE: u8 = b'\n' (10). -/
def NEWLINE : Nat := 10

/-- 2^64, the usize modulus of the (64-bit) target. -/
def U64 : Nat := 18446744073709551616

/-- The error kinds of the spec, standing for the anyhow Error::msg values of
the source (see the header comment for the message-to-kind mapping). -/
inductive RespError where
  | unrecognizedMessageType
  | malformedUtf8
  | invalidInteger
  | invalidCommand
  | unsupportedEncoding
  | connectionClosedUnexpectedly
deriving DecidableEq, Repr

/-- enum Value from resp.rs: String (+), Error (-), Bulk ($), Array (*).
Text payloads are carried as their UTF-8 byte sequences. -/
inductive Value where
  | String : Bytes → Value
  | Error : Bytes → Value
  | Bulk : Bytes → Value
  | Array : List Value → Value

/-- Result of one parse attempt, Rust type Result of Option of (Value, usize):
ok v n = Ok(Some((v, n))), incomplete = Ok(None), fail e = Err(e),
panicked = the call aborts the process (index out of bounds etc.). -/
inductive PResult where
  | ok : Value → Nat → PResult
  | incomplete : PResult
  | fail : RespError → PResult
  | panicked : PResult

/-- Result of the child-collection loop inside decode_array: items together
with the accumulated bytes_consumed counter, or an early exit. -/
inductive LoopResult where
  | ok : List Value → Nat → LoopResult
  | incomplete : LoopResult
  | fail : RespError → LoopResult
  | panicked : LoopResult

/-- fn get_line(buffer: &[u8]) -> Option<(&[u8], usize)>.
Scans for the first index i with buffer[i-1] = CR and buffer[i] = LF and
returns the bytes before the CR together with the total span i+1. -/
def get_line : Bytes → Option (Bytes × Nat)
  | [] => none
  | a :: rest =>
    match rest with
    | [] => none
    | b :: _ =>
      if a = CARRIAGE_RETURN ∧ b = NEWLINE then some (([] : Bytes), 2)
      else
        match get_line rest with
        | some (line, len) => some (a :: line, len + 1)
        | none => none

/-- Continuation byte test for UTF-8: 0x80..=0xBF. -/
def utf8Cont (b : Nat) : Bool := decide (128 ≤ b ∧ b ≤ 191)

/-- States of the UTF-8 acceptor: start = between characters, tail1/2/3 =
that many unconstrained continuation bytes pending, midE0/midED/midF0/midF4 =
after the lead bytes 0xE0/0xED/0xF0/0xF4 whose FIRST continuation byte has a
restricted range (overlong, surrogate, and above-U+10FFFF exclusion). -/
inductive Utf8State where
  | start | tail1 | tail2 | tail3 | midE0 | midED | midF0 | midF4
deriving DecidableEq, Repr

/-- Transition of the UTF-8 acceptor on one byte (none = reject). The lead
byte ranges are those of RFC 3629: 00..7F, C2..DF, E0, E1..EC, ED, EE..EF,
F0, F1..F3, F4. -/
def utf8Step : Utf8State → Nat → Option Utf8State
  | .start, b =>
    if b ≤ 127 then some .start
    else if 194 ≤ b ∧ b ≤ 223 then some .tail1
    else if b = 224 then some .midE0
    else if 225 ≤ b ∧ b ≤ 236 then some .tail2
    else if b = 237 then some .midED
    else if 238 ≤ b ∧ b ≤ 239 then some .tail2
    else if b = 240 then some .midF0
    else if 241 ≤ b ∧ b ≤ 243 then some .tail3
    else if b = 244 then some .midF4
    else none
  | .tail1, b => if utf8Cont b then some .start else none
  | .tail2, b => if utf8Cont b then some .tail1 else none
  | .tail3, b => if utf8Cont b then some .tail2 else none
  | .midE0, b => if 160 ≤ b ∧ b ≤ 191 then some .tail1 else none
  | .midED, b => if 128 ≤ b ∧ b ≤ 159 then some .tail1 else none
  | .midF0, b => if 144 ≤ b ∧ b ≤ 191 then some .tail2 else none
  | .midF4, b => if 128 ≤ b ∧ b ≤ 143 then some .tail2 else none

/-- Run of the UTF-8 acceptor; accepts when the input ends between
characters. -/
def utf8Run : Utf8State → Bytes → Bool
  | st, [] => st = .start
  | st, b :: rest =>
    match utf8Step st b with
    | some st2 => utf8Run st2 rest
    | none => false

/-- UTF-8 validity of a byte sequence, exactly the condition under which
Rust's String::from_utf8 succeeds. -/
def utf8Valid (s : Bytes) : Bool := utf8Run .start s

/-- fn parse_string(bytes: &[u8]) -> Result<String>: String::from_utf8 with
the error mapped to "Could not parse string" (malformedUtf8). -/
def parse_string (bytes : Bytes) : Except RespError Bytes :=
  if utf8Valid bytes then .ok bytes else .error .malformedUtf8

/-- Value of a non-empty all-ASCII-digit byte sequence, read in base 10;
none when empty or when any byte is not an ASCII digit. -/
def digitsVal? (s : Bytes) : Option Nat :=
  if s = [] then none
  else if s.all (fun b => decide (48 ≤ b ∧ b ≤ 57)) then
    some (s.foldl (fun acc b => acc * 10 + (b - 48)) 0)
  else none

/-- Rust str::parse::<i64> on a byte sequence (already known valid UTF-8):
an optional single + or - sign, then one or more ASCII digits, with the
result required to fit in i64. -/
def rustParseI64 (s : Bytes) : Option Int :=
  match s with
  | 43 :: rest =>
    (digitsVal? rest).bind fun n =>
      if n ≤ 9223372036854775807 then some ((n : Int)) else none
  | 45 :: rest =>
    (digitsVal? rest).bind fun n =>
      if n ≤ 9223372036854775808 then some (-(n : Int)) else none
  | _ =>
    (digitsVal? s).bind fun n =>
      if n ≤ 9223372036854775807 then some ((n : Int)) else none

/-- fn parse_integer(bytes: &[u8]) -> Result<i64>: parse_string first (its
failure propagates as malformedUtf8 through the ? operator), then
str::parse::<i64> with failure mapped to invalidInteger. -/
def parse_integer (bytes : Bytes) : Except RespError Int :=
  match parse_string bytes with
  | .error e => .error e
  | .ok s =>
    match rustParseI64 s with
    | some v => .ok v
    | none => .error .invalidInteger

/-- The cast `bulk_length as usize` of the source: two's complement
reinterpretation of an i64 as a u64, i.e. reduction modulo 2^64. -/
def i64ToUsize (n : Int) : Nat := (n % (U64 : Int)).toNat

/-- Rust slice indexing buffer[s..e]: defined (some) exactly when
s ≤ e ≤ buffer.len(); otherwise the program panics (none). -/
def rustSlice (buffer : Bytes) (s e : Nat) : Option Bytes :=
  if s ≤ e ∧ e ≤ buffer.length then some ((buffer.take e).drop s) else none

/-- fn decode_simple_string: scan for the line after the marker byte;
on success the consumed count is the line span plus one marker byte. -/
def decode_simple_string (buffer : Bytes) : PResult :=
  match get_line (buffer.drop 1) with
  | some (line, len) =>
    match parse_string line with
    | .ok s => .ok (.String s) (len + 1)
    | .error e => .fail e
  | none => .incomplete

/-- fn decode_bulk_string: read the length line, compute
end_of_bulk = bytes_consumed + (bulk_length as usize) and
end_of_bulk_line = end_of_bulk + 2 (usize arithmetic, modulo 2^64), then
either report incomplete or slice out the payload and validate it. -/
def decode_bulk_string (buffer : Bytes) : PResult :=
  match get_line (buffer.drop 1) with
  | none => .incomplete
  | some (line, len) =>
    match parse_integer line with
    | .error e => .fail e
    | .ok bulk_length =>
      let bytes_consumed := len + 1
      let end_of_bulk := (bytes_consumed + i64ToUsize bulk_length) % U64
      let end_of_bulk_line := (end_of_bulk + 2) % U64
      if end_of_bulk_line ≤ buffer.length then
        match rustSlice buffer bytes_consumed end_of_bulk with
        | none => .panicked
        | some payload =>
          match parse_string payload with
          | .ok s => .ok (.Bulk s) end_of_bulk_line
          | .error e => .fail e
      else .incomplete

/-- Every line found by get_line has span at least 2 and at most the length
of the scanned buffer. -/
theorem get_line_bounds :
    ∀ (l line : Bytes) (len : Nat), get_line l = some (line, len) → 2 ≤ len ∧ len ≤ l.length := by
  intro l
  induction l with
  | nil => intro line len h; simp [get_line] at h
  | cons a rest ih =>
    intro line len h
    match rest, h with
    | [], h => simp [get_line] at h
    | b :: rest2, h =>
      rw [get_line] at h
      simp only [List.length_cons]
      by_cases hc : a = CARRIAGE_RETURN ∧ b = NEWLINE
      · rw [if_pos hc] at h
        simp only [Option.some.injEq, Prod.mk.injEq] at h
        obtain ⟨h1, h2⟩ := h
        subst h2
        omega
      · rw [if_neg hc] at h
        match hg : get_line (b :: rest2) with
        | some (line2, len2) =>
          rw [hg] at h
          simp only [Option.some.injEq, Prod.mk.injEq] at h
          obtain ⟨h1, h2⟩ := h
          subst h2
          have := ih line2 len2 hg
          simp only [List.length_cons] at this
          omega
        | none => rw [hg] at h; simp at h

mutual

/-- fn parse_message(buffer: BytesMut) -> Result<Option<(Value, usize)>>.
Dispatch on buffer[0] as char; on an empty buffer the index expression
buffer[0] itself panics (out-of-bounds), modelled by the panicked outcome.
The markers are 43 (+), 42 (*), 36 ($). -/
def parse_message (buffer : Bytes) : PResult :=
  match buffer with
  | [] => .panicked
  | b :: rest =>
    if b = 43 then decode_simple_string (b :: rest)
    else if b = 42 then decode_array (b :: rest)
    else if b = 36 then decode_bulk_string (b :: rest)
    else .fail .unrecognizedMessageType
termination_by (buffer.length, 2)

/-- fn decode_array: read the count line, then run the child loop starting
right after it with bytes_consumed = len + 1; for-loop iteration count is
array_length.toNat since a Rust range 0..n is empty for negative n. -/
def decode_array (buffer : Bytes) : PResult :=
  match hline : get_line (buffer.drop 1) with
  | none => .incomplete
  | some (line, len) =>
    match parse_integer line with
    | .error e => .fail e
    | .ok array_length =>
      match decode_array_loop buffer (len + 1) array_length.toNat with
      | .ok items total => .ok (.Array items) total
      | .incomplete => .incomplete
      | .fail e => .fail e
      | .panicked => .panicked
termination_by (buffer.length, 1)
decreasing_by
  have hb := get_line_bounds _ _ _ hline
  simp only [List.length_drop] at hb
  simp_wf
  apply Prod.Lex.left
  omega

/-- The for-loop of decode_array. The source slices buffer[bytes_consumed..]
each iteration (List.drop here); slicing with bytes_consumed > buffer.len()
is a Rust panic, made explicit as the else branch. The returned counter is
the final value of bytes_consumed, accumulated across all children. -/
def decode_array_loop (buffer : Bytes) (bytes_consumed : Nat) (n : Nat) : LoopResult :=
  match n with
  | 0 => .ok [] bytes_consumed
  | m + 1 =>
    if bytes_consumed ≤ buffer.length then
      match parse_message (buffer.drop bytes_consumed) with
      | .ok v c =>
        match decode_array_loop buffer (bytes_consumed + c) m with
        | .ok items total => .ok (v :: items) total
        | .incomplete => .incomplete
        | .fail e => .fail e
        | .panicked => .panicked
      | .incomplete => .incomplete
      | .fail e => .fail e
      | .panicked => .panicked
    else .panicked
termination_by ((buffer.drop bytes_consumed).length + 1, n)
decreasing_by
· exact Prod.Lex.left _ _ (Nat.lt_succ_self _)
· rcases Nat.lt_or_ge ((List.drop (bytes_consumed + c) buffer).length + 1)
    ((List.drop bytes_consumed buffer).length + 1) with hlt | hge
  · exact Prod.Lex.left _ _ hlt
  · have heq : (List.drop (bytes_consumed + c) buffer).length + 1
        = (List.drop bytes_consumed buffer).length + 1 :=
      le_antisymm (by simp only [List.length_drop]; omega) hge
    rw [heq]
    exact Prod.Lex.right _ (Nat.lt_succ_self m)

end

/-- Result of one RespConnection::read_value call, together with the final
content of the connection buffer: endOfStream = Ok(None), value v = Ok(Some v),
fail e = Err(e), panicked = process abort inside parse_message, pending = the
scripted chunk list ran out while the code was still waiting for more bytes
(the real code would stay suspended in read_buf). -/
inductive ReadResult where
  | endOfStream : ReadResult
  | value : Value → ReadResult
  | fail : RespError → ReadResult
  | panicked : ReadResult
  | pending : ReadResult

/-- RespConnection::read_value. The stream is modelled as the list of chunks
successive read_buf calls deliver (an empty chunk = a zero-byte read = EOF);
the second argument is the accumulation buffer self.buffer. Each iteration
appends the chunk, handles the zero-read case, and otherwise calls
parse_message(self.buffer.split()): BytesMut::split moves the ENTIRE buffer
content into the argument and leaves self.buffer empty, and the consumed
count of a parsed value is bound to _ and discarded, exactly as in the
source. The returned pair is (call result, final self.buffer content). -/
def read_value : List Bytes → Bytes → ReadResult × Bytes
  | [], buffer => (.pending, buffer)
  | chunk :: restChunks, buffer =>
    let buffer2 := buffer ++ chunk
    if chunk.length = 0 then
      if buffer2.length = 0 then (.endOfStream, buffer2)
      else (.fail .connectionClosedUnexpectedly, buffer2)
    else
      match parse_message buffer2 with
      | .ok v _ => (.value v, [])
      | .incomplete => read_value restChunks []
      | .fail e => (.fail e, [])
      | .panicked => (.panicked, [])

/-- Rust s.chars().count() for a String s carried as its UTF-8 bytes: the
number of non-continuation bytes (equal to the character count whenever the
bytes are valid UTF-8, which the Rust String type guarantees). -/
def charCount (s : Bytes) : Nat := (s.filter fun b => decide (b ≤ 127 ∨ 192 ≤ b)).length

/-- Decimal rendering of a Nat as ASCII digit bytes, as Rust format! produces
for the usize returned by chars().count(). -/
def natToDecimal (n : Nat) : Bytes :=
  if n = 0 then [48] else (Nat.digits 10 n).reverse.map fun d => 48 + d

/-- Value::encode. String and Error and Bulk produce their wire bytes
(43 = +, 45 = -, 36 = $); the Bulk length prefix is the CHARACTER count of
the text. The Array arm of the source is panic!("value encode not
implemented for: ..."), modelled as none (process abort, not a typed error). -/
def encode : Value → Option Bytes
  | .String s => some (43 :: (s ++ [13, 10]))
  | .Error msg => some (45 :: (msg ++ [13, 10]))
  | .Bulk s => some (36 :: (natToDecimal (charCount s) ++ [13, 10] ++ s ++ [13, 10]))
  | .Array _ => none

/-- Value::unwrap_bulk: some for a Bulk value, none for the
panic!("not a bulk string") arm. -/
def unwrap_bulk : Value → Option Bytes
  | .Bulk s => some s
  | _ => none

/-- Result of Value::to_command: ok name args = Ok((name, args)),
fail e = Err(e), panicked = process abort. -/
inductive CommandResult where
  | ok : Bytes → List Value → CommandResult
  | fail : RespError → CommandResult
  | panicked : CommandResult

/-- Value::to_command. For an Array the source evaluates
items.first().unwrap().unwrap_bulk(): unwrap() panics on an empty array and
unwrap_bulk panics when the first element is not a Bulk; the argument list is
items.clone().into_iter().skip(1).collect(). Any non-Array value is
Err("not an array"), the invalidCommand kind. -/
def to_command : Value → CommandResult
  | .Array items =>
    match items.head? with
    | none => .panicked
    | some first =>
      match unwrap_bulk first with
      | some nm => .ok nm (items.drop 1)
      | none => .panicked
  | _ => .fail .invalidCommand

/-! Basic unfolding lemmas for the mutually recursive decoder. -/

/-- On an empty buffer, buffer[0] is an out-of-bounds index: a panic. -/
theorem parse_message_nil : parse_message [] = .panicked := by
  rw [parse_message]

/-- Dispatch on marker 43 (+). -/
theorem parse_message_simple (rest : Bytes) :
    parse_message (43 :: rest) = decode_simple_string (43 :: rest) := by
  rw [parse_message]; norm_num

/-- Dispatch on marker 42 (*). -/
theorem parse_message_array (rest : Bytes) :
    parse_message (42 :: rest) = decode_array (42 :: rest) := by
  rw [parse_message]; norm_num

/-- Dispatch on marker 36 ($). -/
theorem parse_message_bulk (rest : Bytes) :
    parse_message (36 :: rest) = decode_bulk_string (36 :: rest) := by
  rw [parse_message]; norm_num

/-- Dispatch default: any other first byte is an unrecognised message type. -/
theorem parse_message_other (b : Nat) (rest : Bytes)
    (h1 : b ≠ 43) (h2 : b ≠ 42) (h3 : b ≠ 36) :
    parse_message (b :: rest) = .fail .unrecognizedMessageType := by
  rw [parse_message]; simp [h1, h2, h3]

/-- Loop with zero iterations returns no items and the counter unchanged. -/
theorem decode_array_loop_zero (buffer : Bytes) (bc : Nat) :
    decode_array_loop buffer bc 0 = .ok [] bc := by
  rw [decode_array_loop.eq_def]

/-- One unfolding step of the decode_array loop. -/
theorem decode_array_loop_succ (buffer : Bytes) (bc m : Nat) :
    decode_array_loop buffer bc (m + 1) =
      if bc ≤ buffer.length then
        match parse_message (buffer.drop bc) with
        | .ok v c =>
          match decode_array_loop buffer (bc + c) m with
          | .ok items total => LoopResult.ok (v :: items) total
          | .incomplete => .incomplete
          | .fail e => .fail e
          | .panicked => .panicked
        | .incomplete => .incomplete
        | .fail e => .fail e
        | .panicked => .panicked
      else .panicked := by
  rw [decode_array_loop.eq_def]

/-- decode_array after a successful header line and count parse. -/
theorem decode_array_header (buffer line : Bytes) (len : Nat) (cnt : Int)
    (hline : get_line (buffer.drop 1) = some (line, len))
    (hint : parse_integer line = .ok cnt) :
    decode_array buffer =
      match decode_array_loop buffer (len + 1) cnt.toNat with
      | .ok items total => PResult.ok (.Array items) total
      | .incomplete => .incomplete
      | .fail e => .fail e
      | .panicked => .panicked := by
  rw [decode_array.eq_def]
  split
  · simp_all
  · rename_i line2 len2 heq
    rw [hline] at heq
    injection heq with heq
    injection heq with heq1 heq2
    subst heq1
    subst heq2
    rw [hint]

/-- decode_simple_string after a successful line scan. -/
theorem decode_simple_string_line (buffer line : Bytes) (len : Nat)
    (hline : get_line (buffer.drop 1) = some (line, len)) :
    decode_simple_string buffer =
      match parse_string line with
      | .ok s => PResult.ok (.String s) (len + 1)
      | .error e => .fail e := by
  unfold decode_simple_string
  rw [hline]

/-- decode_bulk_string after a successful length line and integer parse. -/
theorem decode_bulk_string_line (buffer line : Bytes) (len : Nat) (bulk_length : Int)
    (hline : get_line (buffer.drop 1) = some (line, len))
    (hint : parse_integer line = .ok bulk_length) :
    decode_bulk_string buffer =
      (if ((len + 1 + i64ToUsize bulk_length) % U64 + 2) % U64 ≤ buffer.length then
        match rustSlice buffer (len + 1) ((len + 1 + i64ToUsize bulk_length) % U64) with
        | none => PResult.panicked
        | some payload =>
          match parse_string payload with
          | .ok s => PResult.ok (.Bulk s) (((len + 1 + i64ToUsize bulk_length) % U64 + 2) % U64)
          | .error e => .fail e
      else .incomplete) := by
  unfold decode_bulk_string
  rw [hline]
  simp only [hint]

/-- One unfolding step of the decode_array loop, phrased for a nonzero
iteration count n (with n - 1 remaining afterwards). -/
theorem decode_array_loop_pos (buffer : Bytes) (bc n : Nat) (hn : n ≠ 0) :
    decode_array_loop buffer bc n =
      if bc ≤ buffer.length then
        match parse_message (buffer.drop bc) with
        | .ok v c =>
          match decode_array_loop buffer (bc + c) (n - 1) with
          | .ok items total => LoopResult.ok (v :: items) total
          | .incomplete => .incomplete
          | .fail e => .fail e
          | .panicked => .panicked
        | .incomplete => .incomplete
        | .fail e => .fail e
        | .panicked => .panicked
      else .panicked := by
  match n, hn with
  | m + 1, _ =>
    rw [decode_array_loop_succ]
    simp only [Nat.add_sub_cancel]

/-! Bounds: a successful parse never reports more consumed bytes than the
buffer holds. -/

/-- decode_simple_string consumed-bytes bound. -/
theorem decode_simple_string_consumed_le (buf : Bytes) (v : Value) (c : Nat)
    (h : decode_simple_string buf = .ok v c) : c ≤ buf.length := by
  unfold decode_simple_string at h
  split at h
  · rename_i line len hg
    have hb := get_line_bounds _ _ _ hg
    simp only [List.length_drop] at hb
    split at h
    · injection h with h1 h2
      omega
    · exact absurd h (by simp)
  · exact absurd h (by simp)

/-- decode_bulk_string consumed-bytes bound. -/
theorem decode_bulk_string_consumed_le (buf : Bytes) (v : Value) (c : Nat)
    (h : decode_bulk_string buf = .ok v c) : c ≤ buf.length := by
  unfold decode_bulk_string at h
  split at h
  · exact absurd h (by simp)
  · rename_i line len hg
    split at h
    · exact absurd h (by simp)
    · rename_i bulk_length hint
      simp only at h
      split at h
      · rename_i hle
        split at h
        · exact absurd h (by simp)
        · split at h
          · injection h with h1 h2
            omega
          · exact absurd h (by simp)
      · exact absurd h (by simp)

/-- Joint consumed-bytes bound for the mutually recursive decoder, by
induction on a length budget. -/
theorem decoder_consumed_le (N : Nat) :
    (∀ buf : Bytes, buf.length ≤ N → ∀ v c, parse_message buf = .ok v c → c ≤ buf.length) ∧
    (∀ buf : Bytes, buf.length ≤ N → ∀ v c, decode_array buf = .ok v c → c ≤ buf.length) ∧
    (∀ n (buf : Bytes) (bc : Nat), buf.length ≤ N → 1 ≤ bc → bc ≤ buf.length →
      ∀ items total, decode_array_loop buf bc n = .ok items total → total ≤ buf.length) := by
  induction N with
  | zero =>
    refine ⟨?_, ?_, ?_⟩
    · intro buf hN v c h
      match buf, hN with
      | [], _ => rw [parse_message_nil] at h; exact absurd h (by simp)
    · intro buf hN v c h
      match buf, hN with
      | [], _ =>
        rw [decode_array.eq_def] at h
        simp only [List.drop_nil, get_line] at h
        exact absurd h (by simp)
    · intro n buf bc hN hbc1 hbc2 items total h
      match buf, hN with
      | [], _ => simp at hbc2; omega
  | succ N ih =>
    obtain ⟨ihpm, ihda, ihloop⟩ := ih
    have hloop : ∀ n (buf : Bytes) (bc : Nat), buf.length ≤ N + 1 → 1 ≤ bc → bc ≤ buf.length →
        ∀ items total, decode_array_loop buf bc n = .ok items total → total ≤ buf.length := by
      intro n
      induction n with
      | zero =>
        intro buf bc hN hbc1 hbc2 items total h
        rw [decode_array_loop_zero] at h
        injection h with h1 h2
        omega
      | succ m ihn =>
        intro buf bc hN hbc1 hbc2 items total h
        rw [decode_array_loop_succ] at h
        rw [if_pos hbc2] at h
        split at h
        · rename_i v c hpm
          have hc : c ≤ (buf.drop bc).length :=
            ihpm (buf.drop bc) (by simp only [List.length_drop]; omega) v c hpm
          simp only [List.length_drop] at hc
          split at h
          · rename_i items2 total2 hrec
            injection h with h1 h2
            subst h2
            exact ihn buf (bc + c) hN (by omega) (by omega) items2 total2 hrec
          all_goals exact absurd h (by simp)
        all_goals exact absurd h (by simp)
    have hda : ∀ buf : Bytes, buf.length ≤ N + 1 → ∀ v c,
        decode_array buf = .ok v c → c ≤ buf.length := by
      intro buf hN v c h
      rw [decode_array.eq_def] at h
      split at h
      · exact absurd h (by simp)
      · rename_i line len hg
        have hb := get_line_bounds _ _ _ hg
        simp only [List.length_drop] at hb
        split at h
        · exact absurd h (by simp)
        · rename_i cnt hint
          split at h
          · rename_i items total hrec
            injection h with h1 h2
            subst h2
            exact hloop _ buf (len + 1) hN (by omega) (by omega) items total hrec
          all_goals exact absurd h (by simp)
    have hpm : ∀ buf : Bytes, buf.length ≤ N + 1 → ∀ v c,
        parse_message buf = .ok v c → c ≤ buf.length := by
      intro buf hN v c h
      match buf with
      | [] => rw [parse_message_nil] at h; exact absurd h (by simp)
      | b :: rest =>
        rw [parse_message] at h
        split at h
        · exact decode_simple_string_consumed_le _ _ _ h
        · split at h
          · exact hda _ hN v c h
          · split at h
            · exact decode_bulk_string_consumed_le _ _ _ h
            · exact absurd h (by simp)
    exact ⟨hpm, hda, hloop⟩

/-- A successful parse_message consumes at most the whole buffer. -/
theorem parse_message_consumed_le (buf : Bytes) (v : Value) (c : Nat)
    (h : parse_message buf = .ok v c) : c ≤ buf.length :=
  (decoder_consumed_le buf.length).1 buf (le_refl _) v c h

/-- The sequential-child-parses relation of the spec: ChildrenParse tail l
says that parse_message, invoked repeatedly starting at tail, yields in
order the values and consumed counts listed in l, each next invocation
starting at the previous tail advanced by the consumed count. -/
def ChildrenParse : Bytes → List (Value × Nat) → Prop
  | _, [] => True
  | tail, (v, c) :: rest => parse_message tail = .ok v c ∧ ChildrenParse (tail.drop c) rest

/-- If the n children all parse (per ChildrenParse), the decode_array loop
returns exactly those n values and accumulates all their consumed counts. -/
theorem decode_array_loop_of_children :
    ∀ (children : List (Value × Nat)) (buffer : Bytes) (bc : Nat),
      1 ≤ bc → bc ≤ buffer.length →
      ChildrenParse (buffer.drop bc) children →
      decode_array_loop buffer bc children.length
        = .ok (children.map Prod.fst) (bc + (children.map Prod.snd).sum) := by
  intro children
  induction children with
  | nil =>
    intro buffer bc hbc1 hbc2 hch
    simp only [List.length_nil, List.map_nil, List.sum_nil, Nat.add_zero]
    exact decode_array_loop_zero buffer bc
  | cons vc children ihch =>
    intro buffer bc hbc1 hbc2 hch
    obtain ⟨v, c⟩ := vc
    obtain ⟨hpm, hrest⟩ := hch
    have hc : c ≤ (buffer.drop bc).length := parse_message_consumed_le _ _ _ hpm
    simp only [List.length_drop] at hc
    rw [List.length_cons, decode_array_loop_succ, if_pos hbc2, hpm]
    rw [List.drop_drop] at hrest
    simp only [ihch buffer (bc + c) (by omega) (by omega) hrest, List.map_cons,
      List.sum_cons, Nat.add_assoc]

/-- If the first children parse but the next child attempt reports
incomplete, the whole decode_array loop reports incomplete, regardless of
how many iterations were still pending. -/
theorem decode_array_loop_incomplete_of :
    ∀ (children : List (Value × Nat)) (buffer : Bytes) (bc n : Nat),
      1 ≤ bc → bc ≤ buffer.length →
      ChildrenParse (buffer.drop bc) children →
      children.length < n →
      parse_message (buffer.drop (bc + (children.map Prod.snd).sum)) = .incomplete →
      decode_array_loop buffer bc n = .incomplete := by
  intro children
  induction children with
  | nil =>
    intro buffer bc n hbc1 hbc2 hch hn hpm
    simp only [List.map_nil, List.sum_nil, Nat.add_zero] at hpm
    rw [decode_array_loop_pos buffer bc n (by omega), if_pos hbc2, hpm]
  | cons vc children ihch =>
    intro buffer bc n hbc1 hbc2 hch hn hpm
    obtain ⟨v, c⟩ := vc
    obtain ⟨hpmc, hrest⟩ := hch
    have hc : c ≤ (buffer.drop bc).length := parse_message_consumed_le _ _ _ hpmc
    simp only [List.length_drop] at hc
    rw [List.drop_drop] at hrest
    simp only [List.length_cons] at hn
    simp only [List.map_cons, List.sum_cons, ← Nat.add_assoc] at hpm
    rw [decode_array_loop_pos buffer bc n (by omega), if_pos hbc2, hpmc]
    simp only [ihch buffer (bc + c) (n - 1) (by omega) (by omega) hrest (by omega) hpm]

/-- parse_message on a star-marked buffer whose count line reads cnt, when
all cnt children parse: the result collects the children in order and the
consumed count accumulates the header line and all child counts. -/
theorem parse_message_array_ok (rest line : Bytes) (len : Nat) (cnt : Int)
    (children : List (Value × Nat))
    (hline : get_line rest = some (line, len))
    (hint : parse_integer line = .ok cnt)
    (hlen : children.length = cnt.toNat)
    (hch : ChildrenParse ((42 :: rest).drop (len + 1)) children) :
    parse_message (42 :: rest)
      = .ok (.Array (children.map Prod.fst)) ((len + 1) + (children.map Prod.snd).sum) := by
  have hb := get_line_bounds _ _ _ hline
  rw [parse_message_array]
  rw [decode_array_header (42 :: rest) line len cnt (by simpa using hline) hint]
  rw [← hlen]
  rw [decode_array_loop_of_children children (42 :: rest) (len + 1) (by omega)
    (by simp only [List.length_cons]; omega) hch]

/-- parse_message on a star-marked buffer whose count line reads cnt, when
only some children parse and the next child attempt is incomplete: the whole
message is incomplete. -/
theorem parse_message_array_incomplete (rest line : Bytes) (len : Nat) (cnt : Int)
    (children : List (Value × Nat))
    (hline : get_line rest = some (line, len))
    (hint : parse_integer line = .ok cnt)
    (hlen : children.length < cnt.toNat)
    (hch : ChildrenParse ((42 :: rest).drop (len + 1)) children)
    (hnext : parse_message ((42 :: rest).drop ((len + 1) + (children.map Prod.snd).sum))
      = .incomplete) :
    parse_message (42 :: rest) = .incomplete := by
  have hb := get_line_bounds _ _ _ hline
  rw [parse_message_array]
  rw [decode_array_header (42 :: rest) line len cnt (by simpa using hline) hint]
  rw [decode_array_loop_incomplete_of children (42 :: rest) (len + 1) cnt.toNat (by omega)
    (by simp only [List.length_cons]; omega) hch hlen hnext]

/-! Lemmas about get_line, UTF-8 validity of ASCII text, and decimal
renderings, used for the encode/decode round trip. -/

/-- One-step unfolding of get_line on a buffer with at least two bytes. -/
theorem get_line_cons (a b : Nat) (t : Bytes) :
    get_line (a :: b :: t) =
      if a = 13 ∧ b = 10 then some (([] : Bytes), 2)
      else
        match get_line (b :: t) with
        | some (line, len) => some (a :: line, len + 1)
        | none => none := by
  rw [get_line]
  rfl

/-- Scanning a CR-free prefix followed by CRLF finds exactly that prefix,
with span prefix length + 2, whatever follows the terminator. -/
theorem get_line_no_cr (p rest : Bytes) (hp : ∀ b ∈ p, b ≠ 13) :
    get_line (p ++ 13 :: 10 :: rest) = some (p, p.length + 2) := by
  induction p with
  | nil =>
    rw [List.nil_append, get_line_cons]
    simp
  | cons a p ih =>
    have ha : a ≠ 13 := hp a (by simp)
    have ih2 := ih fun b hb => hp b (by simp [hb])
    cases p with
    | nil =>
      rw [List.nil_append] at ih2
      rw [List.cons_append, List.nil_append, get_line_cons, if_neg (by simp [ha]), ih2]
      rfl
    | cons b p2 =>
      simp only [List.cons_append] at ih2 ⊢
      rw [get_line_cons, if_neg (by simp [ha]), ih2]
      rfl

/-- A list of ASCII bytes (at most 127) is valid UTF-8. -/
theorem utf8Valid_ascii (s : Bytes) (hs : ∀ b ∈ s, b ≤ 127) : utf8Valid s = true := by
  unfold utf8Valid
  induction s with
  | nil => rfl
  | cons b s ih =>
    have hb : b ≤ 127 := hs b (by simp)
    have hstep : utf8Step .start b = some .start := by
      simp only [utf8Step]
      rw [if_pos hb]
    rw [utf8Run, hstep]
    exact ih fun x hx => hs x (by simp [hx])

/-- parse_string succeeds (with the same bytes) on ASCII content. -/
theorem parse_string_ascii (s : Bytes) (hs : ∀ b ∈ s, b ≤ 127) :
    parse_string s = .ok s := by
  unfold parse_string
  rw [if_pos (utf8Valid_ascii s hs)]

/-- Every byte of a decimal rendering is an ASCII digit. -/
theorem natToDecimal_digits (n : Nat) : ∀ b ∈ natToDecimal n, 48 ≤ b ∧ b ≤ 57 := by
  intro b hb
  unfold natToDecimal at hb
  split at hb
  · simp at hb
    omega
  · simp only [List.mem_map, List.mem_reverse] at hb
    obtain ⟨d, hd, rfl⟩ := hb
    have := Nat.digits_lt_base (by norm_num) hd
    omega

/-- A decimal rendering is never empty. -/
theorem natToDecimal_ne_nil (n : Nat) : natToDecimal n ≠ [] := by
  unfold natToDecimal
  split
  · simp
  · rename_i hn
    simp only [ne_eq, List.map_eq_nil_iff, List.reverse_eq_nil_iff]
    exact Nat.digits_ne_nil_iff_ne_zero.mpr hn

/-- Folding the base-10 accumulator over big-endian digits recovers the
little-endian ofDigits value. -/
theorem foldl_digits_eq_ofDigits (l : List Nat) :
    (l.reverse.map fun d => 48 + d).foldl (fun acc b => acc * 10 + (b - 48)) 0
      = Nat.ofDigits 10 l := by
  rw [List.map_reverse, List.foldl_reverse]
  induction l with
  | nil => rfl
  | cons d l ih =>
    simp only [List.map_cons, List.foldr_cons, ih, Nat.ofDigits_cons]
    omega

/-- digitsVal? recovers the rendered number. -/
theorem digitsVal_natToDecimal (n : Nat) : digitsVal? (natToDecimal n) = some n := by
  unfold digitsVal?
  rw [if_neg (natToDecimal_ne_nil n)]
  rw [if_pos]
  · unfold natToDecimal
    split
    · rename_i hn
      subst hn
      rfl
    · rw [foldl_digits_eq_ofDigits, Nat.ofDigits_digits]
  · rw [List.all_eq_true]
    intro b hb
    have := natToDecimal_digits n b hb
    simp only [decide_eq_true_eq]
    omega

/-- rustParseI64 on a first byte that is neither + (43) nor - (45) reads the
whole input as unsigned digits. -/
theorem rustParseI64_default (b : Nat) (t : Bytes) (h1 : b ≠ 43) (h2 : b ≠ 45) :
    rustParseI64 (b :: t) =
      (digitsVal? (b :: t)).bind fun n =>
        if n ≤ 9223372036854775807 then some ((n : Int)) else none := by
  rw [rustParseI64.eq_def]
  split
  · rename_i heq
    injection heq with heq1 heq2
    exact absurd heq1 h1
  · rename_i heq
    injection heq with heq1 heq2
    exact absurd heq1 h2
  · rfl

/-- Rust's i64 parse recovers a rendered chars().count() value as long as it
fits in i64. -/
theorem rustParseI64_natToDecimal (n : Nat) (hn : n ≤ 9223372036854775807) :
    rustParseI64 (natToDecimal n) = some ((n : Int)) := by
  match hd : natToDecimal n with
  | [] => exact absurd hd (natToDecimal_ne_nil n)
  | b :: t =>
    have hb := natToDecimal_digits n b (by rw [hd]; simp)
    rw [rustParseI64_default b t (by omega) (by omega), ← hd, digitsVal_natToDecimal]
    simp only [Option.some_bind]
    rw [if_pos hn]

/-- parse_integer recovers a rendered value that fits in i64. -/
theorem parse_integer_natToDecimal (n : Nat) (hn : n ≤ 9223372036854775807) :
    parse_integer (natToDecimal n) = .ok ((n : Int)) := by
  unfold parse_integer
  rw [parse_string_ascii _ fun b hb => by have := natToDecimal_digits n b hb; omega]
  simp only [rustParseI64_natToDecimal n hn]

/-- Length bound for decimal renderings of values below 10^19 (every i64
value qualifies). -/
theorem natToDecimal_length_le (n : Nat) (hn : n < 10 ^ 19) :
    (natToDecimal n).length ≤ 19 := by
  unfold natToDecimal
  split
  · simp
  · rename_i hn0
    simp only [List.length_map, List.length_reverse]
    by_contra hlong
    have h1 : 10 ^ (Nat.digits 10 n).length ≤ 10 * n :=
      Nat.base_pow_length_digits_le 10 n (by norm_num) hn0
    have h2 : (10 : Nat) ^ 20 ≤ 10 ^ (Nat.digits 10 n).length :=
      Nat.pow_le_pow_right (by norm_num) (by omega)
    have h3 : (10 : Nat) * n < 10 ^ 20 := by
      calc (10 : Nat) * n < 10 * 10 ^ 19 := by omega
      _ = 10 ^ 20 := by norm_num
    omega

/-- The character count of ASCII text equals its byte count. -/
theorem charCount_ascii (s : Bytes) (hs : ∀ b ∈ s, b ≤ 127) : charCount s = s.length := by
  unfold charCount
  rw [List.filter_eq_self.mpr]
  intro b hb
  simp only [decide_eq_true_eq]
  exact Or.inl (hs b hb)

/-- The usize cast of a nonnegative i64 value below 2^64 is its Nat value. -/
theorem i64ToUsize_ofNat (n : Nat) (hn : n < 18446744073709551616) :
    i64ToUsize ((n : Int)) = n := by
  unfold i64ToUsize U64
  rw [Int.emod_eq_of_lt (by omega) (by exact_mod_cast hn)]
  simp

/-- Decoding the encoding of a simple string of printable ASCII text
recovers the value, consuming the whole encoding. -/
theorem parse_message_encode_string (s : Bytes) (hs : ∀ b ∈ s, 32 ≤ b ∧ b ≤ 126) :
    parse_message (43 :: (s ++ [13, 10])) = .ok (.String s) (s.length + 3) := by
  have hline : get_line ((43 :: (s ++ [13, 10])).drop 1) = some (s, s.length + 2) := by
    rw [List.drop_one, List.tail_cons]
    rw [show (s ++ [13, 10] : Bytes) = s ++ 13 :: 10 :: [] from rfl]
    exact get_line_no_cr s [] fun b hb => by have := hs b hb; omega
  rw [parse_message_simple]
  rw [decode_simple_string_line _ s (s.length + 2) hline]
  rw [parse_string_ascii s fun b hb => by have := hs b hb; omega]

/-- Decoding the encoding of a bulk string of printable ASCII text (of
realistic length: below i64::MAX bytes) recovers the value, consuming the
whole encoding. -/
theorem parse_message_encode_bulk (s : Bytes) (hs : ∀ b ∈ s, 32 ≤ b ∧ b ≤ 126)
    (hlen : s.length ≤ 9223372036854775807) :
    parse_message (36 :: (natToDecimal (charCount s) ++ [13, 10] ++ s ++ [13, 10]))
      = .ok (.Bulk s)
          (36 :: (natToDecimal (charCount s) ++ [13, 10] ++ s ++ [13, 10])).length := by
  have hascii : ∀ b ∈ s, b ≤ 127 := fun b hb => by have := hs b hb; omega
  have hcc : charCount s = s.length := charCount_ascii s hascii
  have hd19 : (natToDecimal s.length).length ≤ 19 :=
    natToDecimal_length_le s.length (by omega)
  have hshape : (natToDecimal (charCount s) ++ [13, 10] ++ s ++ [13, 10] : Bytes)
      = natToDecimal s.length ++ 13 :: 10 :: (s ++ [13, 10]) := by
    rw [hcc]
    simp [List.append_assoc]
  rw [hshape]
  have hline : get_line ((36 :: (natToDecimal s.length ++ 13 :: 10 :: (s ++ [13, 10]))).drop 1)
      = some (natToDecimal s.length, (natToDecimal s.length).length + 2) := by
    rw [List.drop_one, List.tail_cons]
    exact get_line_no_cr _ _ fun b hb => by have := natToDecimal_digits s.length b hb; omega
  have hint : parse_integer (natToDecimal s.length) = .ok ((s.length : Int)) :=
    parse_integer_natToDecimal s.length hlen
  rw [parse_message_bulk]
  rw [decode_bulk_string_line _ _ _ _ hline hint]
  rw [i64ToUsize_ofNat s.length (by omega)]
  set D := (natToDecimal s.length).length with hD
  have hbuflen : (36 :: (natToDecimal s.length ++ 13 :: 10 :: (s ++ [13, 10]))).length
      = D + s.length + 5 := by
    simp [hD]
    omega
  have hmod1 : (D + 2 + 1 + s.length) % U64 = D + 3 + s.length := by
    apply Nat.mod_eq_of_lt
    unfold U64
    omega
  have hmod2 : (D + 3 + s.length + 2) % U64 = D + s.length + 5 := by
    have h0 : (D + 3 + s.length + 2) % U64 = D + 3 + s.length + 2 :=
      Nat.mod_eq_of_lt (by unfold U64; omega)
    omega
  rw [hmod1, hmod2, hbuflen, if_pos (by omega)]
  have hslice : rustSlice (36 :: (natToDecimal s.length ++ 13 :: 10 :: (s ++ [13, 10])))
      (D + 2 + 1) (D + 3 + s.length) = some s := by
    unfold rustSlice
    rw [if_pos (And.intro (by omega) (by rw [hbuflen]; omega))]
    have hpre : (36 :: (natToDecimal s.length ++ 13 :: 10 :: (s ++ [13, 10])) : Bytes)
        = (36 :: natToDecimal s.length ++ [13, 10]) ++ (s ++ [13, 10]) := by
      simp
    rw [hpre]
    have hplen : (36 :: natToDecimal s.length ++ [13, 10] : Bytes).length = D + 3 := by
      simp [hD]
    rw [show D + 3 + s.length = (36 :: natToDecimal s.length ++ [13, 10] : Bytes).length
        + s.length by omega]
    rw [List.take_append]
    rw [show D + 2 + 1 = (36 :: natToDecimal s.length ++ [13, 10] : Bytes).length
        by omega]
    rw [List.drop_left]
    rw [List.take_left]
  rw [hslice]
  simp only [parse_string_ascii s hascii]

/-! Claim theorems. -/

/-- Claim C9: for every non-empty buffer whose first byte is none of 43 (+),
42 (*), 36 ($), parse_message fails with UnrecognizedMessageType; in
particular on "%x\r\n" ([37, 120, 13, 10]). -/
theorem claim_c9_unrecognized_marker :
    (∀ (b : Nat) (rest : Bytes), b ≠ 43 → b ≠ 42 → b ≠ 36 →
      parse_message (b :: rest) = .fail .unrecognizedMessageType) ∧
    parse_message [37, 120, 13, 10] = .fail .unrecognizedMessageType := by
  refine ⟨parse_message_other, ?_⟩
  exact parse_message_other 37 [120, 13, 10] (by decide) (by decide) (by decide)

/-- Witness for claim C9 at the concrete buffer [37]. -/
theorem claim_c9_witness : parse_message [37] = .fail .unrecognizedMessageType :=
  claim_c9_unrecognized_marker.1 37 [] (by decide) (by decide) (by decide)

/-- Claim C2 is refuted by the code: parse_message on "*1\r\n" ([42, 49, 13,
10]) ABORTS the process. The array header promises one element, the loop
slices the empty tail buffer[4..] and the recursive parse_message indexes
buffer[0] out of bounds. The same indexing panics on an empty buffer. -/
theorem claim_c2_array_header_panics :
    parse_message [42, 49, 13, 10] = .panicked ∧ parse_message [] = .panicked := by
  constructor
  · rw [parse_message_array]
    rw [decode_array_header _ [49] 3 1 (by rfl) (by rfl)]
    rw [decode_array_loop_pos _ _ _ (by decide)]
    norm_num [parse_message_nil]
  · exact parse_message_nil

/-- Claim C10: the bulk length line is parsed as a signed integer, so "-1"
yields Ok(-1) (not InvalidInteger), and parse_message on "$-1\r\n"
([36, 45, 49, 13, 10]) reports incomplete: the wrapped usize arithmetic makes
end_of_bulk_line = 6 > 5 = buffer length. -/
theorem claim_c10_negative_bulk_length :
    parse_integer [45, 49] = .ok (-1) ∧ parse_message [36, 45, 49, 13, 10] = .incomplete := by
  constructor
  · rfl
  · rw [parse_message_bulk]
    rfl

/-- Claim C3 is refuted by the code: to_command PANICS on an empty Array
(items.first().unwrap() on None) and on an Array whose first element is not a
Bulk (unwrap_bulk's panic arm); only non-Array values produce the typed
InvalidCommand error. The last conjunct shows the successful shape. -/
theorem claim_c3_to_command_panics :
    to_command (.Array []) = .panicked ∧
    to_command (.Array [.String [120]]) = .panicked ∧
    to_command (.String [120]) = .fail .invalidCommand ∧
    to_command (.Array [.Bulk [112, 105, 110, 103], .String [120]])
      = .ok [112, 105, 110, 103] [.String [120]] :=
  ⟨rfl, rfl, rfl, rfl⟩

/-- Claim C4 is refuted by the code: encoding an Array value is the
panic!("value encode not implemented for: ...") arm, a process abort (none in
this model), not a typed UnsupportedEncoding error. The match arm is the
wildcard arm, independent of the array contents, shown here on the empty
array and on a non-empty one. -/
theorem claim_c4_encode_array_panics :
    encode (.Array []) = none ∧ encode (.Array [.String [120]]) = none :=
  ⟨rfl, rfl⟩

/-- Claim C8: whenever a read returns zero bytes, read_value returns clean
end-of-stream if the accumulation buffer is empty at that moment and fails
with ConnectionClosedUnexpectedly otherwise (the buffer is left untouched). -/
theorem claim_c8_eof_policy (restChunks : List Bytes) (buffer : Bytes) :
    read_value ([] :: restChunks) buffer =
      if buffer = [] then (.endOfStream, buffer)
      else (.fail .connectionClosedUnexpectedly, buffer) := by
  rw [read_value]
  by_cases hb : buffer = []
  · subst hb
    simp
  · rw [if_neg hb]
    rw [if_pos (show ([] : Bytes).length = 0 from rfl)]
    rw [if_neg (show ¬List.length (buffer ++ []) = 0 from by
      simpa [List.length_eq_zero] using hb)]
    simp

/-- Witness for claim C8: zero-byte read with empty and with non-empty
buffer. -/
theorem claim_c8_witness :
    read_value [[]] [] = (.endOfStream, []) ∧
    read_value [[]] [42] = (.fail .connectionClosedUnexpectedly, [42]) := by
  constructor
  · rw [claim_c8_eof_policy]
    simp
  · rw [claim_c8_eof_policy]
    simp

/-- Claim C6: bulk string decode. For a buffer starting with 36 ($) whose
length line parses as L with 0 ≤ L (and, as in any real buffer, no usize
wraparound in span + L + 2): if the buffer is shorter than
(length-line span) + L + 2 = len + 1 + L + 2 bytes the decode reports
incomplete; otherwise it validates the L payload bytes as UTF-8 and yields
BulkString of that text, consuming exactly len + 1 + L + 2 bytes. -/
theorem claim_c6_bulk_decode (rest line : Bytes) (len : Nat) (L : Int)
    (hline : get_line rest = some (line, len))
    (hint : parse_integer line = .ok L)
    (hL : 0 ≤ L)
    (hnw : len + 1 + L.toNat + 2 < 18446744073709551616) :
    ((36 :: rest : Bytes).length < len + 1 + L.toNat + 2 →
      parse_message (36 :: rest) = .incomplete) ∧
    (len + 1 + L.toNat + 2 ≤ (36 :: rest : Bytes).length →
      parse_message (36 :: rest)
        = match parse_string (((36 :: rest).take (len + 1 + L.toNat)).drop (len + 1)) with
          | .ok s => .ok (.Bulk s) (len + 1 + L.toNat + 2)
          | .error e => .fail e) := by
  have hcast : i64ToUsize L = L.toNat := by
    rw [show L = ((L.toNat : Nat) : Int) from (Int.toNat_of_nonneg hL).symm]
    rw [Int.toNat_natCast]
    exact i64ToUsize_ofNat _ (by omega)
  have hpm : parse_message (36 :: rest) = decode_bulk_string (36 :: rest) :=
    parse_message_bulk rest
  have hdec := decode_bulk_string_line (36 :: rest) line len L (by simpa using hline) hint
  rw [hcast] at hdec
  have hmod1 : (len + 1 + L.toNat) % U64 = len + 1 + L.toNat :=
    Nat.mod_eq_of_lt (by unfold U64; omega)
  have hmod2 : (len + 1 + L.toNat + 2) % U64 = len + 1 + L.toNat + 2 :=
    Nat.mod_eq_of_lt (by unfold U64; omega)
  rw [hmod1, hmod2] at hdec
  constructor
  · intro hshort
    rw [hpm, hdec, if_neg (by omega)]
  · intro hlong
    rw [hpm, hdec, if_pos (by omega)]
    have hslice : rustSlice (36 :: rest) (len + 1) (len + 1 + L.toNat)
        = some (((36 :: rest).take (len + 1 + L.toNat)).drop (len + 1)) := by
      unfold rustSlice
      rw [if_pos (And.intro (by omega) (by omega))]
    rw [hslice]

/-- Witness for claim C6 on the concrete buffer "$3\r\nhey\r\n": both the
incomplete branch (on the truncated "$3\r\nhe") and the success branch. -/
theorem claim_c6_witness :
    parse_message [36, 51, 13, 10, 104, 101] = .incomplete ∧
    parse_message [36, 51, 13, 10, 104, 101, 121, 13, 10]
      = .ok (.Bulk [104, 101, 121]) 9 := by
  constructor
  · exact (claim_c6_bulk_decode [51, 13, 10, 104, 101] [51] 3 3 (by decide) (by rfl)
      (by decide) (by decide)).1 (by decide)
  · exact (claim_c6_bulk_decode [51, 13, 10, 104, 101, 121, 13, 10] [51] 3 3 (by decide)
      (by rfl) (by decide) (by decide)).2 (by decide)

/-- Claim C7: array decode. After a star marker (42) and a count line reading
cnt, the decoder invokes parse_message once per child on successive buffer
tails (the ChildrenParse relation), accumulating consumed bytes across the
header line and all children; if all cnt children parse, the result is the
Array of their values with total consumed (len + 1) + sum of child counts; if
only a prefix of the children parses and the next child attempt is
incomplete, the whole array decode is incomplete. Concretely, parse_message
on "*2\r\n$4\r\nECHO\r\n$3\r\nhey\r\n" yields
Array([Bulk "ECHO", Bulk "hey"]) consuming all 23 bytes. -/
theorem claim_c7_array_decode (rest line : Bytes) (len : Nat) (cnt : Int)
    (hline : get_line rest = some (line, len))
    (hint : parse_integer line = .ok cnt) :
    (∀ children : List (Value × Nat),
      ChildrenParse ((42 :: rest).drop (len + 1)) children →
      children.length = cnt.toNat →
      parse_message (42 :: rest)
        = .ok (.Array (children.map Prod.fst)) ((len + 1) + (children.map Prod.snd).sum)) ∧
    (∀ children : List (Value × Nat),
      ChildrenParse ((42 :: rest).drop (len + 1)) children →
      children.length < cnt.toNat →
      parse_message ((42 :: rest).drop ((len + 1) + (children.map Prod.snd).sum))
        = .incomplete →
      parse_message (42 :: rest) = .incomplete) ∧
    parse_message [42, 50, 13, 10, 36, 52, 13, 10, 69, 67, 72, 79, 13, 10,
        36, 51, 13, 10, 104, 101, 121, 13, 10]
      = .ok (.Array [.Bulk [69, 67, 72, 79], .Bulk [104, 101, 121]]) 23 := by
  refine ⟨?_, ?_, ?_⟩
  · intro children hch hlen
    exact parse_message_array_ok rest line len cnt children hline hint hlen hch
  · intro children hch hlen hnext
    exact parse_message_array_incomplete rest line len cnt children hline hint hlen hch hnext
  · rw [parse_message_array]
    rw [decode_array_header _ [50] 3 2 (by rfl) (by rfl)]
    rw [decode_array_loop_pos _ _ _ (by decide)]
    norm_num [parse_message_bulk,
      show decode_bulk_string [36, 52, 13, 10, 69, 67, 72, 79, 13, 10, 36, 51, 13, 10,
        104, 101, 121, 13, 10] = .ok (.Bulk [69, 67, 72, 79]) 10 from rfl]
    rw [decode_array_loop_pos _ _ _ (by decide)]
    norm_num [parse_message_bulk,
      show decode_bulk_string [36, 51, 13, 10, 104, 101, 121, 13, 10]
        = .ok (.Bulk [104, 101, 121]) 9 from rfl]
    rw [decode_array_loop_zero]

/-- Witness for claim C7 on "*1\r\n$4\r\nping\r\n": the single bulk child
parses and the array consumes all 14 bytes. -/
theorem claim_c7_witness :
    parse_message [42, 49, 13, 10, 36, 52, 13, 10, 112, 105, 110, 103, 13, 10]
      = .ok (.Array [.Bulk [112, 105, 110, 103]]) 14 := by
  refine (claim_c7_array_decode [49, 13, 10, 36, 52, 13, 10, 112, 105, 110, 103, 13, 10]
    [49] 3 1 (by decide) (by rfl)).1 [(Value.Bulk [112, 105, 110, 103], 10)] ?_ (by decide)
  refine ⟨?_, trivial⟩
  show parse_message [36, 52, 13, 10, 112, 105, 110, 103, 13, 10]
    = PResult.ok (Value.Bulk [112, 105, 110, 103]) 10
  rw [parse_message_bulk]
  rfl

/-- Counterexample to claim C5: the ErrorValue round trip fails. The encoding
of Error "x" is "-x\r\n", and parse_message has no branch for the 45 (-)
marker: it fails with UnrecognizedMessageType instead of yielding the value
back. -/
theorem claim_c5_counterexample :
    encode (.Error [120]) = some [45, 120, 13, 10] ∧
    parse_message [45, 120, 13, 10] = .fail .unrecognizedMessageType := by
  refine ⟨rfl, ?_⟩
  exact parse_message_other 45 [120, 13, 10] (by decide) (by decide) (by decide)

/-- Claim C5 as amended: for printable-ASCII, CR/LF-free text of realistic
length, decode(encode v) recovers v, consuming the entire encoding, for
SimpleString and BulkString values; for an ErrorValue the encoding does not
decode back at all: parse_message fails with UnrecognizedMessageType because
the decoder has no branch for the - marker. -/
theorem claim_c5_roundtrip_amended (s : Bytes)
    (hs : ∀ b ∈ s, 32 ≤ b ∧ b ≤ 126)
    (hlen : s.length ≤ 9223372036854775807) :
    (∃ e, encode (.String s) = some e ∧ parse_message e = .ok (.String s) e.length) ∧
    (∃ e, encode (.Bulk s) = some e ∧ parse_message e = .ok (.Bulk s) e.length) ∧
    (∃ e, encode (.Error s) = some e ∧ parse_message e = .fail .unrecognizedMessageType) := by
  refine ⟨⟨43 :: (s ++ [13, 10]), rfl, ?_⟩,
    ⟨36 :: (natToDecimal (charCount s) ++ [13, 10] ++ s ++ [13, 10]), rfl, ?_⟩,
    ⟨45 :: (s ++ [13, 10]), rfl, ?_⟩⟩
  · rw [parse_message_encode_string s hs]
    simp
  · exact parse_message_encode_bulk s hs hlen
  · exact parse_message_other 45 _ (by decide) (by decide) (by decide)

/-- Witness for claim C5 (amended) at the text "x" ([120]). -/
theorem claim_c5_witness :
    (∃ e, encode (.String [120]) = some e
      ∧ parse_message e = .ok (.String [120]) e.length) ∧
    (∃ e, encode (.Bulk [120]) = some e
      ∧ parse_message e = .ok (.Bulk [120]) e.length) ∧
    (∃ e, encode (.Error [120]) = some e
      ∧ parse_message e = .fail .unrecognizedMessageType) :=
  claim_c5_roundtrip_amended [120] (by decide) (by decide)

/-- Claim C1 is refuted by the code. First conjunct: the first chunk
"*1\r\n$4\r\n" alone parses incomplete, as the claim says. Second conjunct:
read_value on the chunks "*1\r\n$4\r\n" then "ping\r\n" (starting from an
empty buffer) does NOT yield Array([Bulk "ping"]): parse_message is called
on self.buffer.split(), which drains the whole buffer, so the incomplete
first chunk is discarded; the second read parses "ping\r\n" alone and fails
with UnrecognizedMessageType, with the buffer left empty. The consumed-count
trimming the claim describes never happens either: the count is bound to _
and the buffer is emptied wholesale on every parse attempt. -/
theorem claim_c1_split_discards_buffer :
    parse_message [42, 49, 13, 10, 36, 52, 13, 10] = .incomplete ∧
    read_value [[42, 49, 13, 10, 36, 52, 13, 10], [112, 105, 110, 103, 13, 10]] []
      = (.fail .unrecognizedMessageType, []) := by
  have hpm1 : parse_message [42, 49, 13, 10, 36, 52, 13, 10] = .incomplete := by
    rw [parse_message_array]
    rw [decode_array_header _ [49] 3 1 (by rfl) (by rfl)]
    rw [decode_array_loop_pos _ _ _ (by decide)]
    norm_num [parse_message_bulk,
      show decode_bulk_string [36, 52, 13, 10] = .incomplete from rfl]
  have hpm2 : parse_message [112, 105, 110, 103, 13, 10]
      = .fail .unrecognizedMessageType :=
    parse_message_other 112 [105, 110, 103, 13, 10] (by decide) (by decide) (by decide)
  refine ⟨hpm1, ?_⟩
  rw [read_value]
  rw [if_neg (by decide)]
  rw [show (([] : Bytes) ++ [42, 49, 13, 10, 36, 52, 13, 10]) =
    [42, 49, 13, 10, 36, 52, 13, 10] from rfl]
  rw [hpm1]
  rw [read_value]
  rw [if_neg (by decide)]
  rw [show (([] : Bytes) ++ [112, 105, 110, 103, 13, 10]) =
    [112, 105, 110, 103, 13, 10] from rfl]
  rw [hpm2]
